import Mathlib

/-!
Shallow embedding of the `random-port` Rust library (src/lib.rs, src/utils.rs,
src/error.rs) and proofs of the specification claims about it.

External collaborators (the OS socket bind primitives, the IP-literal parser of
the standard library, the random number generator and the network-interface
enumerator) are modelled as an `Oracle` record of abstract functions; every
function of the repository itself is translated from its source.  Each probing
function additionally returns the list of external `Event`s it performed (bind
probes, random draws, interface enumeration), so that claims of the form "no
probing occurs" are expressible; the first component is the value the Rust
function returns.
-/

namespace RandomPort

/-- Model of `std::net::IpAddr`: an IPv4 or an IPv6 address, abstracted to its
numeric value.  `Ipv4Addr::UNSPECIFIED` is `v4 0`, `Ipv6Addr::UNSPECIFIED` is
`v6 0`. -/
inductive IpAddr
  | v4 (a : Nat)
  | v6 (a : Nat)
deriving DecidableEq

def Ipv4Addr_UNSPECIFIED : IpAddr := IpAddr.v4 0

def Ipv6Addr_UNSPECIFIED : IpAddr := IpAddr.v6 0

/-- Model of `std::io::ErrorKind`, keeping the two kinds the code inspects
distinct from the rest. -/
inductive ErrorKind
  | AddrNotAvailable
  | InvalidInput
  | AddrInUse
  | PermissionDenied
  | Other
deriving DecidableEq

/-- Outcome of a socket bind attempt (`TcpListener::bind` / `UdpSocket::bind`). -/
inductive BindResult
  | ok
  | err (kind : ErrorKind)
deriving DecidableEq

/-- Embedding of the `Protocol` enum of src/lib.rs. -/
inductive Protocol
  | All
  | Tcp
  | Udp
deriving DecidableEq

/-- Embedding of the `Errors` enum of src/error.rs. -/
inductive Errors
  | InvalidOption (msg : String)
  | NoAvailablePort
deriving DecidableEq

/-- The environment: OS bind primitives for TCP and UDP, the IP-literal parser
(`str::parse::<IpAddr>`), the entropy stream behind `rng.gen_range` (the value
drawn at the i-th call), and the address lists of the local network interfaces
(`NetworkInterface::show`). -/
structure Oracle where
  tcpBind : IpAddr → Nat → BindResult
  udpBind : IpAddr → Nat → BindResult
  parseIp : String → Option IpAddr
  rng : Nat → Nat
  ifaces : List (List IpAddr)

/-- Ghost trace of the external actions a run performs. -/
inductive Event
  | tcpProbe (host : IpAddr) (port : Nat)
  | udpProbe (host : IpAddr) (port : Nat)
  | draw (port : Nat)
  | resolveLocal
deriving DecidableEq

instance : DecidableEq (Except Errors Nat) := fun a b =>
  match a, b with
  | Except.ok x, Except.ok y =>
    if h : x = y then isTrue (by rw [h]) else isFalse (fun hc => h (by injection hc))
  | Except.ok _, Except.error _ => isFalse (fun hc => Except.noConfusion hc)
  | Except.error _, Except.ok _ => isFalse (fun hc => Except.noConfusion hc)
  | Except.error e, Except.error f =>
    if h : e = f then isTrue (by rw [h]) else isFalse (fun hc => h (by injection hc))

def MIN_PORT : Nat := 1024

def MAX_PORT : Nat := 65535

/-- Embedding of `is_free_tcp` of src/utils.rs: bind a TCP listener at host:port; free iff
the bind succeeds or fails with `AddrNotAvailable` or `InvalidInput`. -/
def is_free_tcp (o : Oracle) (port : Nat) (host : IpAddr) : Bool × List Event :=
  match o.tcpBind host port with
  | BindResult.ok => (true, [Event.tcpProbe host port])
  | BindResult.err k =>
    if k = ErrorKind.AddrNotAvailable ∨ k = ErrorKind.InvalidInput then
      (true, [Event.tcpProbe host port])
    else
      (false, [Event.tcpProbe host port])

/-- Embedding of `is_free_udp` of src/utils.rs: the same rule with a UDP socket. -/
def is_free_udp (o : Oracle) (port : Nat) (host : IpAddr) : Bool × List Event :=
  match o.udpBind host port with
  | BindResult.ok => (true, [Event.udpProbe host port])
  | BindResult.err k =>
    if k = ErrorKind.AddrNotAvailable ∨ k = ErrorKind.InvalidInput then
      (true, [Event.udpProbe host port])
    else
      (false, [Event.udpProbe host port])

/-- Embedding of `is_free` of src/utils.rs: dispatch on the protocol; `All` is the Rust
short-circuit conjunction `is_free_tcp(..) && is_free_udp(..)`. -/
def is_free (o : Oracle) (port : Nat) (host : IpAddr) (protocol : Protocol) :
    Bool × List Event :=
  match protocol with
  | Protocol.Tcp => is_free_tcp o port host
  | Protocol.Udp => is_free_udp o port host
  | Protocol.All =>
    let t := is_free_tcp o port host
    if t.1 then
      let u := is_free_udp o port host
      (u.1, t.2 ++ u.2)
    else
      (false, t.2)

/-- Embedding of `is_free_in_hosts` of src/utils.rs: iterate the host set (modelled as the
iteration order list); return false at the first host where `is_free` fails,
without consulting the remaining hosts. -/
def is_free_in_hosts (o : Oracle) (port : Nat) (hosts : List IpAddr)
    (protocol : Protocol) : Bool × List Event :=
  match hosts with
  | [] => (true, [])
  | h :: rest =>
    let f := is_free o port h protocol
    if f.1 then
      let r := is_free_in_hosts o port rest protocol
      (r.1, f.2 ++ r.2)
    else
      (false, f.2)

/-- Embedding of `get_local_hosts` of src/utils.rs: a set seeded with the IPv4 and IPv6
unspecified addresses plus every address of every interface.  The `HashSet` is
modelled as a duplicate-free list. -/
def get_local_hosts (o : Oracle) : List IpAddr :=
  (Ipv4Addr_UNSPECIFIED :: Ipv6Addr_UNSPECIFIED :: o.ifaces.flatten).dedup

/-- The Boolean value of `is_free_in_hosts` (the value the Rust function
returns, without the ghost trace). -/
def freeInHosts (o : Oracle) (hosts : List IpAddr) (protocol : Protocol)
    (port : Nat) : Bool :=
  (is_free_in_hosts o port hosts protocol).1

/-- The `PortPicker` configuration struct of src/lib.rs.  The
`RangeInclusive` field is split into its two bounds. -/
structure PortPicker where
  range_start : Nat
  range_end : Nat
  exclude : Finset Nat
  protocol : Protocol
  host : Option String
  random : Bool
deriving DecidableEq

/-- Embedding of `PortPicker::new`. -/
def PortPicker.new : PortPicker :=
  { range_start := MIN_PORT
    range_end := MAX_PORT
    exclude := ∅
    protocol := Protocol.All
    host := none
    random := false }

/-- Embedding of the `PortPicker::port_range` setter. -/
def PortPicker.port_range (se : PortPicker) (s e : Nat) : PortPicker :=
  { se with range_start := s, range_end := e }

/-- Embedding of the `PortPicker::execlude` setter (the name is the source's spelling). -/
def PortPicker.execlude (se : PortPicker) (ex : Finset Nat) : PortPicker :=
  { se with exclude := ex }

/-- Embedding of the `PortPicker::execlude_add` setter. -/
def PortPicker.execlude_add (se : PortPicker) (port : Nat) : PortPicker :=
  { se with exclude := insert port se.exclude }

/-- Embedding of the `PortPicker::protocol` setter (renamed: the field projection takes the
source name). -/
def PortPicker.set_protocol (se : PortPicker) (protocol : Protocol) : PortPicker :=
  { se with protocol := protocol }

/-- Embedding of the `PortPicker::host` setter (renamed: the field projection takes the source
name). -/
def PortPicker.set_host (se : PortPicker) (host : String) : PortPicker :=
  { se with host := some host }

/-- Embedding of the `PortPicker::random` setter (renamed: the field projection takes the
source name). -/
def PortPicker.set_random (se : PortPicker) (random : Bool) : PortPicker :=
  { se with random := random }

/-- Embedding of `rng.gen_range(lo..=hi)` of the rand crate, fed by the entropy value `v`:
some value of the inclusive range when it is non-empty, `none` (a panic) when
`lo > hi`. -/
def gen_range (lo hi v : Nat) : Option Nat :=
  if lo ≤ hi then some (lo + v % (hi + 1 - lo)) else none

/-- Loop of `PortPicker::get_port`: scan `fuel` consecutive ports upward from
`port`, skipping excluded ones, returning the first that is free in all
hosts. -/
def get_port_aux (o : Oracle) (excl : Finset Nat) (protocol : Protocol)
    (hosts : List IpAddr) : Nat → Nat → Except Errors Nat × List Event
  | _, 0 => (Except.error Errors.NoAvailablePort, [])
  | port, n + 1 =>
    if port ∈ excl then
      get_port_aux o excl protocol hosts (port + 1) n
    else
      let f := is_free_in_hosts o port hosts protocol
      if f.1 then
        (Except.ok port, f.2)
      else
        let r := get_port_aux o excl protocol hosts (port + 1) n
        (r.1, f.2 ++ r.2)

/-- Embedding of `PortPicker::get_port` of src/lib.rs: sequential scan of
`range_start..=range_end` (the fuel `range_end + 1 - range_start` is the
number of ports of the inclusive range, 0 when it is empty). -/
def PortPicker.get_port (se : PortPicker) (o : Oracle) (ip_addrs : List IpAddr) :
    Except Errors Nat × List Event :=
  get_port_aux o se.exclude se.protocol ip_addrs se.range_start
    (se.range_end + 1 - se.range_start)

/-- Loop of `PortPicker::random_port`: `fuel` draws, the i-th fed by entropy
`o.rng i`; an excluded draw is skipped but consumes the attempt; `none` models
a panic inside `gen_range`. -/
def random_port_aux (o : Oracle) (lo hi : Nat) (excl : Finset Nat)
    (protocol : Protocol) (hosts : List IpAddr) :
    Nat → Nat → Option (Except Errors Nat × List Event)
  | _, 0 => some (Except.error Errors.NoAvailablePort, [])
  | i, n + 1 =>
    match gen_range lo hi (o.rng i) with
    | none => none
    | some port =>
      if port ∈ excl then
        match random_port_aux o lo hi excl protocol hosts (i + 1) n with
        | none => none
        | some r => some (r.1, Event.draw port :: r.2)
      else
        let f := is_free_in_hosts o port hosts protocol
        if f.1 then
          some (Except.ok port, Event.draw port :: f.2)
        else
          match random_port_aux o lo hi excl protocol hosts (i + 1) n with
          | none => none
          | some r => some (r.1, Event.draw port :: (f.2 ++ r.2))

/-- Embedding of `PortPicker::random_port` of src/lib.rs: `range.len()` draws
(`range_end + 1 - range_start`, 0 when the range is empty, matching
`RangeInclusive::len`). -/
def PortPicker.random_port (se : PortPicker) (o : Oracle)
    (ip_addrs : List IpAddr) : Option (Except Errors Nat × List Event) :=
  random_port_aux o se.range_start se.range_end se.exclude se.protocol ip_addrs
    0 (se.range_end + 1 - se.range_start)

/-- Embedding of `PortPicker::pick` of src/lib.rs: validate the range
(`range.is_empty()` is `range_end < range_start`; then the `MIN_PORT` /
`MAX_PORT` bounds), resolve the host (parse the configured literal, or
enumerate the local interfaces), then dispatch on the strategy flag. -/
def PortPicker.pick (se : PortPicker) (o : Oracle) :
    Option (Except Errors Nat × List Event) :=
  if se.range_end < se.range_start then
    some (Except.error (Errors.InvalidOption
      "The start port must be less than or equal to the end port"), [])
  else if se.range_start < MIN_PORT ∨ MAX_PORT < se.range_end then
    some (Except.error (Errors.InvalidOption
      ("The port range must be between " ++ toString MIN_PORT ++ " and " ++
        toString MAX_PORT)), [])
  else
    match se.host with
    | some h =>
      match o.parseIp h with
      | some ip =>
        if se.random then
          se.random_port o [ip]
        else
          some (se.get_port o [ip])
      | none =>
        some (Except.error (Errors.InvalidOption
          ("The host " ++ h ++ " is not a valid IP address")), [])
    | none =>
      let hosts := get_local_hosts o
      if se.random then
        match se.random_port o hosts with
        | none => none
        | some r => some (r.1, Event.resolveLocal :: r.2)
      else
        let r := se.get_port o hosts
        some (r.1, Event.resolveLocal :: r.2)

/-- State-passing form of `pick`: Rust's `pick(&self)` borrows the
configuration immutably, so the embedding threads the configuration value
through unchanged and returns it alongside the result, making the frame
property (no field is mutated by a call) expressible. -/
def PortPicker.pick_st (se : PortPicker) (o : Oracle) :
    Option (Except Errors Nat × List Event) × PortPicker :=
  (se.pick o, se)

/-- The address list `pick` probes against, as determined by the host field
(mirrors the resolution step of `pick`; the parse-failure case never reaches
probing, the empty list is a placeholder there). -/
def resolvedHosts (se : PortPicker) (o : Oracle) : List IpAddr :=
  match se.host with
  | some h =>
    match o.parseIp h with
    | some ip => [ip]
    | none => []
  | none => get_local_hosts o

/-- Value of `range.len()` of the configured inclusive range. -/
def rangeLen (se : PortPicker) : Nat :=
  se.range_end + 1 - se.range_start

/-- The port of the j-th random draw: `gen_range` applied to the j-th entropy
value (meaningful when the range is non-empty). -/
def drawn (se : PortPicker) (o : Oracle) (j : Nat) : Nat :=
  se.range_start + o.rng j % (se.range_end + 1 - se.range_start)

def isDraw : Event → Bool
  | Event.draw _ => true
  | _ => false

/-- Number of random draws recorded in a trace. -/
def countDraws (l : List Event) : Nat :=
  (l.filter isDraw).length

/-- The validation `pick` performs, as a decidable predicate: non-empty range,
range inside the `MIN_PORT`/`MAX_PORT` bounds, and a parseable host when one
is configured. -/
def validCfgB (se : PortPicker) (o : Oracle) : Bool :=
  decide (se.range_start ≤ se.range_end) &&
  decide (MIN_PORT ≤ se.range_start) &&
  decide (se.range_end ≤ MAX_PORT) &&
  (match se.host with
   | some h => (o.parseIp h).isSome
   | none => true)

/-- An event is admissible for a probing run over the host list `hosts`: bind
probes may target only members of `hosts`, draws are unrestricted, and no
interface enumeration happens. -/
def eventOkFor (hosts : List IpAddr) (e : Event) : Prop :=
  match e with
  | Event.tcpProbe a _ => a ∈ hosts
  | Event.udpProbe a _ => a ∈ hosts
  | Event.draw _ => True
  | Event.resolveLocal => False

/-- Concrete environment used to instantiate the theorems: every bind
succeeds, the loopback literal parses, entropy is constantly 0, one interface
with the loopback address. -/
def oracle0 : Oracle :=
  { tcpBind := fun _ _ => BindResult.ok
    udpBind := fun _ _ => BindResult.ok
    parseIp := fun s => if s = "127.0.0.1" then some (IpAddr.v4 2130706433) else none
    rng := fun _ => 0
    ifaces := [[IpAddr.v4 2130706433]] }

/-- Concrete environment where every bind fails with `AddrInUse`. -/
def oracleBusy : Oracle :=
  { tcpBind := fun _ _ => BindResult.err ErrorKind.AddrInUse
    udpBind := fun _ _ => BindResult.err ErrorKind.AddrInUse
    parseIp := fun s => if s = "127.0.0.1" then some (IpAddr.v4 2130706433) else none
    rng := fun _ => 0
    ifaces := [] }

/-- Concrete valid sequential configuration. -/
def cfgSeq : PortPicker :=
  { range_start := 2000
    range_end := 2002
    exclude := {2000}
    protocol := Protocol.All
    host := some "127.0.0.1"
    random := false }

/-- Concrete valid random-strategy configuration. -/
def cfgRand : PortPicker :=
  { range_start := 2000
    range_end := 2001
    exclude := ∅
    protocol := Protocol.Tcp
    host := some "127.0.0.1"
    random := true }

/-- Concrete configuration with an inverted range. -/
def cfgInverted : PortPicker :=
  { range_start := 2000
    range_end := 1000
    exclude := ∅
    protocol := Protocol.All
    host := none
    random := false }

/-- Concrete configuration whose range starts below `MIN_PORT`. -/
def cfgLow : PortPicker :=
  { range_start := 0
    range_end := 2000
    exclude := ∅
    protocol := Protocol.All
    host := none
    random := false }

end RandomPort

namespace RandomPort

/-- Claim C7: the single-transport bindability check (TCP, and symmetrically
UDP) reports a (port, address) pair free iff the bind attempt succeeds or
fails with error kind `AddrNotAvailable` or `InvalidInput`; every other bind
failure is reported as not free. -/
theorem is_free_tcp_udp_iff (o : Oracle) (p : Nat) (a : IpAddr) :
    ((is_free_tcp o p a).1 = true ↔
      o.tcpBind a p = BindResult.ok ∨
      o.tcpBind a p = BindResult.err ErrorKind.AddrNotAvailable ∨
      o.tcpBind a p = BindResult.err ErrorKind.InvalidInput) ∧
    ((is_free_udp o p a).1 = true ↔
      o.udpBind a p = BindResult.ok ∨
      o.udpBind a p = BindResult.err ErrorKind.AddrNotAvailable ∨
      o.udpBind a p = BindResult.err ErrorKind.InvalidInput) := by
  constructor
  · unfold is_free_tcp
    cases h : o.tcpBind a p with
    | ok => simp
    | err k => cases k <;> simp
  · unfold is_free_udp
    cases h : o.udpBind a p with
    | ok => simp
    | err k => cases k <;> simp

theorem is_free_tcp_udp_iff_witness :
    (is_free_tcp oracle0 3000 (IpAddr.v4 0)).1 = true ∧
    (is_free_udp oracleBusy 3000 (IpAddr.v4 0)).1 ≠ true :=
  ⟨((is_free_tcp_udp_iff oracle0 3000 (IpAddr.v4 0)).1).mpr (Or.inl rfl),
   fun h => by
    have := ((is_free_tcp_udp_iff oracleBusy 3000 (IpAddr.v4 0)).2).mp h
    simp [oracleBusy] at this⟩

/-- Claim C6: under protocol `All` a (port, address) pair is free iff both the
TCP and the UDP check report it free; a port is free in a host list iff the
per-protocol check succeeds for every address, and the first address that
reports not-free short-circuits the remaining addresses (the trace holds only
that address's probes). -/
theorem is_free_all_and_in_hosts (o : Oracle) (p : Nat) (a : IpAddr)
    (hosts : List IpAddr) (pr : Protocol) :
    ((is_free o p a Protocol.All).1 =
      ((is_free_tcp o p a).1 && (is_free_udp o p a).1)) ∧
    (freeInHosts o hosts pr p = true ↔
      ∀ a' ∈ hosts, (is_free o p a' pr).1 = true) ∧
    (∀ a' rest, (is_free o p a' pr).1 = false →
      is_free_in_hosts o p (a' :: rest) pr = (false, (is_free o p a' pr).2)) := by
  refine ⟨?_, ?_, ?_⟩
  · unfold is_free
    by_cases h : (is_free_tcp o p a).1 <;> simp [h]
  · induction hosts with
    | nil => simp [freeInHosts, is_free_in_hosts]
    | cons b t ih =>
      simp only [freeInHosts, is_free_in_hosts] at ih ⊢
      by_cases hf : (is_free o p b pr).1 = true
      · simp [hf, ih]
      · simp [hf]
  · intro a' rest hf
    simp [is_free_in_hosts, hf]

theorem is_free_all_and_in_hosts_witness :
    is_free_in_hosts oracleBusy 3000 [IpAddr.v4 1, IpAddr.v4 2] Protocol.Tcp =
      (false, [Event.tcpProbe (IpAddr.v4 1) 3000]) :=
  (is_free_all_and_in_hosts oracleBusy 3000 (IpAddr.v4 1) [] Protocol.Tcp).2.2
    (IpAddr.v4 1) [IpAddr.v4 2] (by decide)

/-- Claim C8: with no host configured, the resolved address list is
duplicate-free and holds exactly the addresses of the local interfaces
together with the IPv4 and IPv6 unspecified addresses, which are always
included. -/
theorem get_local_hosts_spec (o : Oracle) :
    (get_local_hosts o).Nodup ∧
    ∀ a, a ∈ get_local_hosts o ↔
      (a = Ipv4Addr_UNSPECIFIED ∨ a = Ipv6Addr_UNSPECIFIED ∨
        ∃ l ∈ o.ifaces, a ∈ l) := by
  refine ⟨List.nodup_dedup _, fun a => ?_⟩
  simp [get_local_hosts, List.mem_dedup, List.mem_flatten]

theorem get_local_hosts_spec_witness :
    Ipv4Addr_UNSPECIFIED ∈ get_local_hosts oracleBusy :=
  ((get_local_hosts_spec oracleBusy).2 Ipv4Addr_UNSPECIFIED).mpr (Or.inl rfl)

/-- Claim C9: `pick` never mutates the configuration: in the state-passing
embedding of `pick(&self)` every field is returned unchanged, and the
returned configuration picks exactly as the original does under any later
environment. -/
theorem pick_preserves_config (se : PortPicker) (o o2 : Oracle) :
    (se.pick_st o).2.range_start = se.range_start ∧
    (se.pick_st o).2.range_end = se.range_end ∧
    (se.pick_st o).2.exclude = se.exclude ∧
    (se.pick_st o).2.protocol = se.protocol ∧
    (se.pick_st o).2.host = se.host ∧
    (se.pick_st o).2.random = se.random ∧
    ((se.pick_st o).2).pick o2 = se.pick o2 :=
  ⟨rfl, rfl, rfl, rfl, rfl, rfl, rfl⟩

lemma get_port_aux_ok (o : Oracle) (excl : Finset Nat) (pr : Protocol)
    (hs : List IpAddr) :
    ∀ n port p, (get_port_aux o excl pr hs port n).1 = Except.ok p →
      port ≤ p ∧ p < port + n ∧ p ∉ excl ∧ freeInHosts o hs pr p = true ∧
      ∀ q, port ≤ q → q < p → q ∈ excl ∨ freeInHosts o hs pr q = false := by
  intro n
  induction n with
  | zero =>
    intro port p h
    simp [get_port_aux] at h
  | succ n ih =>
    intro port p h
    by_cases hex : port ∈ excl
    · simp only [get_port_aux, if_pos hex] at h
      obtain ⟨h1, h2, h3, h4, h5⟩ := ih (port + 1) p h
      refine ⟨by omega, by omega, h3, h4, fun q hq1 hq2 => ?_⟩
      rcases Nat.lt_or_ge q (port + 1) with hq | hq
      · have hqe : q = port := by omega
        exact Or.inl (hqe ▸ hex)
      · exact h5 q hq hq2
    · cases hfree : (is_free_in_hosts o port hs pr).1 with
      | true =>
        simp only [get_port_aux, if_neg hex, hfree, if_pos] at h
        have hp : port = p := by
          simpa using h
        subst hp
        refine ⟨Nat.le_refl _, by omega, hex, hfree, fun q hq1 hq2 => ?_⟩
        omega
      | false =>
        simp only [get_port_aux, if_neg hex, hfree] at h
        obtain ⟨h1, h2, h3, h4, h5⟩ := ih (port + 1) p h
        refine ⟨by omega, by omega, h3, h4, fun q hq1 hq2 => ?_⟩
        rcases Nat.lt_or_ge q (port + 1) with hq | hq
        · have hqe : q = port := by omega
          subst hqe
          exact Or.inr (by simpa [freeInHosts] using hfree)
        · exact h5 q hq hq2

lemma get_port_aux_err (o : Oracle) (excl : Finset Nat) (pr : Protocol)
    (hs : List IpAddr) :
    ∀ n port, ((get_port_aux o excl pr hs port n).1 =
        Except.error Errors.NoAvailablePort ↔
      ∀ q, port ≤ q → q < port + n →
        q ∈ excl ∨ freeInHosts o hs pr q = false) := by
  intro n
  induction n with
  | zero =>
    intro port
    simp only [get_port_aux]
    exact ⟨fun _ q h1 h2 => absurd h1 (by omega), fun _ => trivial⟩
  | succ n ih =>
    intro port
    by_cases hex : port ∈ excl
    · simp only [get_port_aux, if_pos hex]
      rw [ih (port + 1)]
      constructor
      · intro hrec q h1 h2
        rcases Nat.lt_or_ge q (port + 1) with hq | hq
        · have hqe : q = port := by omega
          exact Or.inl (hqe ▸ hex)
        · exact hrec q hq (by omega)
      · intro hall q h1 h2
        exact hall q (by omega) (by omega)
    · cases hfree : (is_free_in_hosts o port hs pr).1 with
      | true =>
        simp only [get_port_aux, if_neg hex, hfree, if_pos]
        constructor
        · intro h
          exact absurd h (by simp)
        · intro hall
          rcases hall port (Nat.le_refl _) (by omega) with hc | hc
          · exact absurd hc hex
          · rw [freeInHosts] at hc
            rw [hc] at hfree
            exact absurd hfree (by simp)
      | false =>
        simp only [get_port_aux, if_neg hex, hfree]
        refine Iff.trans (ih (port + 1)) ⟨?_, ?_⟩
        · intro hrec q h1 h2
          rcases Nat.lt_or_ge q (port + 1) with hq | hq
          · have hqe : q = port := by omega
            subst hqe
            exact Or.inr (by simpa [freeInHosts] using hfree)
          · exact hrec q hq (by omega)
        · intro hall q h1 h2
          exact hall q (by omega) (by omega)

lemma get_port_aux_shape (o : Oracle) (excl : Finset Nat) (pr : Protocol)
    (hs : List IpAddr) :
    ∀ n port, (∃ p, (get_port_aux o excl pr hs port n).1 = Except.ok p) ∨
      (get_port_aux o excl pr hs port n).1 =
        Except.error Errors.NoAvailablePort := by
  intro n
  induction n with
  | zero =>
    intro port
    exact Or.inr rfl
  | succ n ih =>
    intro port
    by_cases hex : port ∈ excl
    · simpa only [get_port_aux, if_pos hex] using ih (port + 1)
    · cases hfree : (is_free_in_hosts o port hs pr).1 with
      | true =>
        simp only [get_port_aux, if_neg hex, hfree, if_pos]
        exact Or.inl ⟨port, rfl⟩
      | false =>
        simpa only [get_port_aux, if_neg hex, hfree] using ih (port + 1)

/-- Claim C2: the sequential search scans the range upward, skips excluded
ports, and a returned port is the smallest in-range, non-excluded port that is
free in every resolved address; it returns `NoAvailablePort` exactly when
every port of the range is excluded or not free. -/
theorem get_port_sequential_spec (se : PortPicker) (o : Oracle)
    (hosts : List IpAddr) :
    (∀ p, (se.get_port o hosts).1 = Except.ok p →
      se.range_start ≤ p ∧ p ≤ se.range_end ∧ p ∉ se.exclude ∧
      freeInHosts o hosts se.protocol p = true ∧
      ∀ q, se.range_start ≤ q → q < p →
        q ∈ se.exclude ∨ freeInHosts o hosts se.protocol q = false) ∧
    ((se.get_port o hosts).1 = Except.error Errors.NoAvailablePort ↔
      ∀ q, se.range_start ≤ q → q ≤ se.range_end →
        q ∈ se.exclude ∨ freeInHosts o hosts se.protocol q = false) := by
  constructor
  · intro p h
    obtain ⟨h1, h2, h3, h4, h5⟩ :=
      get_port_aux_ok o se.exclude se.protocol hosts
        (se.range_end + 1 - se.range_start) se.range_start p h
    exact ⟨h1, by omega, h3, h4, h5⟩
  · rw [PortPicker.get_port,
      get_port_aux_err o se.exclude se.protocol hosts
        (se.range_end + 1 - se.range_start) se.range_start]
    constructor
    · intro hall q h1 h2
      exact hall q h1 (by omega)
    · intro hall q h1 h2
      exact hall q h1 (by omega)

theorem get_port_sequential_spec_witness :
    2000 ≤ 2001 ∧ 2001 ≤ 2002 ∧ 2001 ∉ cfgSeq.exclude ∧
    freeInHosts oracle0 [IpAddr.v4 99] cfgSeq.protocol 2001 = true ∧
    ∀ q, 2000 ≤ q → q < 2001 →
      q ∈ cfgSeq.exclude ∨
        freeInHosts oracle0 [IpAddr.v4 99] cfgSeq.protocol q = false :=
  (get_port_sequential_spec cfgSeq oracle0 [IpAddr.v4 99]).1 2001 (by decide)

lemma countDraws_append (l1 l2 : List Event) :
    countDraws (l1 ++ l2) = countDraws l1 + countDraws l2 := by
  simp [countDraws, List.filter_append]

lemma countDraws_draw_cons (p : Nat) (l : List Event) :
    countDraws (Event.draw p :: l) = countDraws l + 1 := by
  simp [countDraws, isDraw]

lemma countDraws_resolve_cons (l : List Event) :
    countDraws (Event.resolveLocal :: l) = countDraws l := by
  simp [countDraws, isDraw]

lemma countDraws_is_free_tcp (o : Oracle) (p : Nat) (a : IpAddr) :
    countDraws (is_free_tcp o p a).2 = 0 := by
  cases h : o.tcpBind a p with
  | ok => simp [is_free_tcp, h, countDraws, isDraw]
  | err k =>
    simp only [is_free_tcp, h]
    split <;> simp [countDraws, isDraw]

lemma countDraws_is_free_udp (o : Oracle) (p : Nat) (a : IpAddr) :
    countDraws (is_free_udp o p a).2 = 0 := by
  cases h : o.udpBind a p with
  | ok => simp [is_free_udp, h, countDraws, isDraw]
  | err k =>
    simp only [is_free_udp, h]
    split <;> simp [countDraws, isDraw]

lemma countDraws_is_free (o : Oracle) (p : Nat) (a : IpAddr) (pr : Protocol) :
    countDraws (is_free o p a pr).2 = 0 := by
  cases pr with
  | Tcp => exact countDraws_is_free_tcp o p a
  | Udp => exact countDraws_is_free_udp o p a
  | All =>
    by_cases h : (is_free_tcp o p a).1 = true <;>
      simp [is_free, h, countDraws_append, countDraws_is_free_tcp,
        countDraws_is_free_udp]

lemma countDraws_is_free_in_hosts (o : Oracle) (p : Nat) (hs : List IpAddr)
    (pr : Protocol) :
    countDraws (is_free_in_hosts o p hs pr).2 = 0 := by
  induction hs with
  | nil => rfl
  | cons b t ih =>
    by_cases h : (is_free o p b pr).1 = true <;>
      simp [is_free_in_hosts, h, countDraws_append, countDraws_is_free, ih]

lemma random_port_aux_isSome (o : Oracle) (lo hi : Nat) (excl : Finset Nat)
    (pr : Protocol) (hs : List IpAddr) (hle : lo ≤ hi) :
    ∀ n i, (random_port_aux o lo hi excl pr hs i n).isSome = true := by
  intro n
  induction n with
  | zero => intro i; rfl
  | succ n ih =>
    intro i
    have hg : gen_range lo hi (o.rng i) =
        some (lo + o.rng i % (hi + 1 - lo)) := by
      simp [gen_range, hle]
    cases hr : random_port_aux o lo hi excl pr hs (i + 1) n with
    | none =>
      have hs2 := ih (i + 1)
      rw [hr] at hs2
      simp at hs2
    | some r =>
      by_cases hex : lo + o.rng i % (hi + 1 - lo) ∈ excl
      · simp [random_port_aux, hg, hex, hr]
      · by_cases hfree :
          (is_free_in_hosts o (lo + o.rng i % (hi + 1 - lo)) hs pr).1 = true
        · simp [random_port_aux, hg, hex, hfree]
        · simp [random_port_aux, hg, hex, hfree, hr]

lemma random_port_aux_count (o : Oracle) (lo hi : Nat) (excl : Finset Nat)
    (pr : Protocol) (hs : List IpAddr) :
    ∀ n i r, random_port_aux o lo hi excl pr hs i n = some r →
      countDraws r.2 ≤ n := by
  intro n
  induction n with
  | zero =>
    intro i r h
    simp only [random_port_aux, Option.some.injEq] at h
    rw [← h]
    simp [countDraws]
  | succ n ih =>
    intro i r h
    cases hg : gen_range lo hi (o.rng i) with
    | none => simp [random_port_aux, hg] at h
    | some port =>
      simp only [random_port_aux, hg] at h
      by_cases hex : port ∈ excl
      · rw [if_pos hex] at h
        cases hr : random_port_aux o lo hi excl pr hs (i + 1) n with
        | none => rw [hr] at h; simp at h
        | some r2 =>
          rw [hr] at h
          simp only [Option.some.injEq] at h
          rw [← h]
          have hc := ih (i + 1) r2 hr
          simp [countDraws_draw_cons]
          omega
      · rw [if_neg hex] at h
        cases hfree : (is_free_in_hosts o port hs pr).1 with
        | true =>
          rw [hfree, if_pos rfl] at h
          simp only [Option.some.injEq] at h
          rw [← h]
          simp [countDraws_draw_cons, countDraws_is_free_in_hosts]
        | false =>
          rw [hfree, if_neg (by decide)] at h
          cases hr : random_port_aux o lo hi excl pr hs (i + 1) n with
          | none => rw [hr] at h; simp at h
          | some r2 =>
            rw [hr] at h
            simp only [Option.some.injEq] at h
            rw [← h]
            have hc := ih (i + 1) r2 hr
            simp [countDraws_draw_cons, countDraws_append,
              countDraws_is_free_in_hosts]
            omega

lemma random_port_aux_ok (o : Oracle) (lo hi : Nat) (excl : Finset Nat)
    (pr : Protocol) (hs : List IpAddr) (hle : lo ≤ hi) :
    ∀ n i res l p, random_port_aux o lo hi excl pr hs i n = some (res, l) →
      res = Except.ok p →
      ∃ j, j < n ∧ lo + o.rng (i + j) % (hi + 1 - lo) = p ∧ p ∉ excl ∧
        freeInHosts o hs pr p = true ∧
        ∀ k, k < j → (lo + o.rng (i + k) % (hi + 1 - lo) ∈ excl ∨
          freeInHosts o hs pr (lo + o.rng (i + k) % (hi + 1 - lo)) = false) := by
  intro n
  induction n with
  | zero =>
    intro i res l p h hres
    simp only [random_port_aux, Option.some.injEq, Prod.mk.injEq] at h
    rw [← h.1] at hres
    exact absurd hres (by simp)
  | succ n ih =>
    intro i res l p h hres
    have hg : gen_range lo hi (o.rng i) =
        some (lo + o.rng i % (hi + 1 - lo)) := by
      simp [gen_range, hle]
    simp only [random_port_aux, hg] at h
    by_cases hex : lo + o.rng i % (hi + 1 - lo) ∈ excl
    · rw [if_pos hex] at h
      cases hr : random_port_aux o lo hi excl pr hs (i + 1) n with
      | none => rw [hr] at h; simp at h
      | some r2 =>
        rw [hr] at h
        simp only [Option.some.injEq, Prod.mk.injEq] at h
        rw [← h.1] at hres
        obtain ⟨j, hj, hD, hp1, hp2, hall⟩ := ih (i + 1) r2.1 r2.2 p hr hres
        refine ⟨j + 1, by omega, ?_, hp1, hp2, ?_⟩
        · have he : i + (j + 1) = i + 1 + j := by omega
          rw [he]
          exact hD
        · intro k hk
          cases k with
          | zero => exact Or.inl (by simpa using hex)
          | succ k =>
            have he : i + (k + 1) = i + 1 + k := by omega
            rw [he]
            exact hall k (by omega)
    · rw [if_neg hex] at h
      cases hfree : (is_free_in_hosts o (lo + o.rng i % (hi + 1 - lo)) hs pr).1 with
      | true =>
        rw [hfree, if_pos rfl] at h
        simp only [Option.some.injEq, Prod.mk.injEq] at h
        rw [← h.1] at hres
        have hp : lo + o.rng i % (hi + 1 - lo) = p := by
          injection hres
        refine ⟨0, by omega, by simpa using hp, ?_, ?_,
          fun k hk => absurd hk (by omega)⟩
        · rw [← hp]
          exact hex
        · rw [← hp, freeInHosts]
          exact hfree
      | false =>
        rw [hfree, if_neg (by decide)] at h
        cases hr : random_port_aux o lo hi excl pr hs (i + 1) n with
        | none => rw [hr] at h; simp at h
        | some r2 =>
          rw [hr] at h
          simp only [Option.some.injEq, Prod.mk.injEq] at h
          rw [← h.1] at hres
          obtain ⟨j, hj, hD, hp1, hp2, hall⟩ := ih (i + 1) r2.1 r2.2 p hr hres
          refine ⟨j + 1, by omega, ?_, hp1, hp2, ?_⟩
          · have he : i + (j + 1) = i + 1 + j := by omega
            rw [he]
            exact hD
          · intro k hk
            cases k with
            | zero =>
              refine Or.inr ?_
              rw [Nat.add_zero, freeInHosts]
              exact hfree
            | succ k =>
              have he : i + (k + 1) = i + 1 + k := by omega
              rw [he]
              exact hall k (by omega)

lemma random_port_aux_exhaust (o : Oracle) (lo hi : Nat) (excl : Finset Nat)
    (pr : Protocol) (hs : List IpAddr) (hle : lo ≤ hi) :
    ∀ n i, (∀ j, j < n → (lo + o.rng (i + j) % (hi + 1 - lo) ∈ excl ∨
        freeInHosts o hs pr (lo + o.rng (i + j) % (hi + 1 - lo)) = false)) →
      ∃ l, random_port_aux o lo hi excl pr hs i n =
        some (Except.error Errors.NoAvailablePort, l) := by
  intro n
  induction n with
  | zero => intro i _; exact ⟨[], rfl⟩
  | succ n ih =>
    intro i hall
    have hg : gen_range lo hi (o.rng i) =
        some (lo + o.rng i % (hi + 1 - lo)) := by
      simp [gen_range, hle]
    obtain ⟨l, hl⟩ := ih (i + 1) (fun j hj => by
      have he : i + 1 + j = i + (j + 1) := by omega
      rw [he]
      exact hall (j + 1) (by omega))
    by_cases hex : lo + o.rng i % (hi + 1 - lo) ∈ excl
    · exact ⟨Event.draw (lo + o.rng i % (hi + 1 - lo)) :: l,
        by simp [random_port_aux, hg, hex, hl]⟩
    · have hfree : freeInHosts o hs pr (lo + o.rng i % (hi + 1 - lo)) = false := by
        rcases hall 0 (by omega) with hc | hc
        · rw [Nat.add_zero] at hc
          exact absurd hc hex
        · rw [Nat.add_zero] at hc
          exact hc
      rw [freeInHosts] at hfree
      exact ⟨Event.draw (lo + o.rng i % (hi + 1 - lo)) ::
          ((is_free_in_hosts o (lo + o.rng i % (hi + 1 - lo)) hs pr).2 ++ l),
        by simp [random_port_aux, hg, hex, hfree, hl]⟩

lemma pick_eq_host (se : PortPicker) (o : Oracle) (h : String) (ip : IpAddr)
    (h1 : se.range_start ≤ se.range_end) (h2 : MIN_PORT ≤ se.range_start)
    (h3 : se.range_end ≤ MAX_PORT) (hh : se.host = some h)
    (hip : o.parseIp h = some ip) :
    se.pick o = if se.random then se.random_port o [ip]
      else some (se.get_port o [ip]) := by
  rw [PortPicker.pick, if_neg (by omega), if_neg (by omega), hh]
  simp [hip]

lemma pick_eq_local (se : PortPicker) (o : Oracle)
    (h1 : se.range_start ≤ se.range_end) (h2 : MIN_PORT ≤ se.range_start)
    (h3 : se.range_end ≤ MAX_PORT) (hh : se.host = none) :
    se.pick o =
      if se.random then
        match se.random_port o (get_local_hosts o) with
        | none => none
        | some r => some (r.1, Event.resolveLocal :: r.2)
      else
        some ((se.get_port o (get_local_hosts o)).1,
          Event.resolveLocal :: (se.get_port o (get_local_hosts o)).2) := by
  rw [PortPicker.pick, if_neg (by omega), if_neg (by omega), hh]

lemma random_port_some (se : PortPicker) (o : Oracle) (hosts : List IpAddr)
    (hle : se.range_start ≤ se.range_end) :
    ∃ r, se.random_port o hosts = some r := by
  have hsome := random_port_aux_isSome o se.range_start se.range_end
    se.exclude se.protocol hosts hle (se.range_end + 1 - se.range_start) 0
  exact Option.isSome_iff_exists.mp hsome

lemma validCfgB_spec (se : PortPicker) (o : Oracle)
    (hv : validCfgB se o = true) :
    se.range_start ≤ se.range_end ∧ MIN_PORT ≤ se.range_start ∧
    se.range_end ≤ MAX_PORT ∧
    ∀ h, se.host = some h → ∃ ip, o.parseIp h = some ip := by
  simp only [validCfgB, Bool.and_eq_true, decide_eq_true_eq] at hv
  obtain ⟨⟨⟨a, b⟩, c⟩, d⟩ := hv
  refine ⟨a, b, c, fun h hh => ?_⟩
  rw [hh] at d
  exact Option.isSome_iff_exists.mp d

lemma random_port_aux_shape (o : Oracle) (lo hi : Nat) (excl : Finset Nat)
    (pr : Protocol) (hs : List IpAddr) :
    ∀ n i res l, random_port_aux o lo hi excl pr hs i n = some (res, l) →
      (∃ p, res = Except.ok p) ∨ res = Except.error Errors.NoAvailablePort := by
  intro n
  induction n with
  | zero =>
    intro i res l h
    simp only [random_port_aux, Option.some.injEq, Prod.mk.injEq] at h
    exact Or.inr h.1.symm
  | succ n ih =>
    intro i res l h
    cases hg : gen_range lo hi (o.rng i) with
    | none => simp [random_port_aux, hg] at h
    | some port =>
      simp only [random_port_aux, hg] at h
      by_cases hex : port ∈ excl
      · rw [if_pos hex] at h
        cases hr : random_port_aux o lo hi excl pr hs (i + 1) n with
        | none => rw [hr] at h; simp at h
        | some r2 =>
          rw [hr] at h
          simp only [Option.some.injEq, Prod.mk.injEq] at h
          rw [← h.1]
          exact ih (i + 1) r2.1 r2.2 hr
      · rw [if_neg hex] at h
        cases hfree : (is_free_in_hosts o port hs pr).1 with
        | true =>
          rw [hfree, if_pos rfl] at h
          simp only [Option.some.injEq, Prod.mk.injEq] at h
          exact Or.inl ⟨port, h.1.symm⟩
        | false =>
          rw [hfree, if_neg (by decide)] at h
          cases hr : random_port_aux o lo hi excl pr hs (i + 1) n with
          | none => rw [hr] at h; simp at h
          | some r2 =>
            rw [hr] at h
            simp only [Option.some.injEq, Prod.mk.injEq] at h
            rw [← h.1]
            exact ih (i + 1) r2.1 r2.2 hr

/-- Claim C1: on every configuration that passes validation, `pick` (under
either strategy) returns either `Ok p` with `p` inside the configured
inclusive range and outside the exclusion set, or `NoAvailablePort`. -/
theorem pick_sound (se : PortPicker) (o : Oracle) (hv : validCfgB se o = true) :
    ∃ res l, se.pick o = some (res, l) ∧
      ((∃ p, res = Except.ok p ∧ se.range_start ≤ p ∧ p ≤ se.range_end ∧
        p ∉ se.exclude) ∨
       res = Except.error Errors.NoAvailablePort) := by
  obtain ⟨h1, h2, h3, h4⟩ := validCfgB_spec se o hv
  have hseq : ∀ hosts : List IpAddr,
      (∃ p, (se.get_port o hosts).1 = Except.ok p ∧ se.range_start ≤ p ∧
        p ≤ se.range_end ∧ p ∉ se.exclude) ∨
      (se.get_port o hosts).1 = Except.error Errors.NoAvailablePort := by
    intro hosts
    rcases get_port_aux_shape o se.exclude se.protocol hosts
        (se.range_end + 1 - se.range_start) se.range_start with ⟨p, hp⟩ | herr
    · obtain ⟨hb1, hb2, hb3, _, _⟩ := get_port_aux_ok o se.exclude se.protocol
        hosts (se.range_end + 1 - se.range_start) se.range_start p hp
      exact Or.inl ⟨p, hp, hb1, by omega, hb3⟩
    · exact Or.inr herr
  have hrnd : ∀ (hosts : List IpAddr) (r : Except Errors Nat × List Event),
      se.random_port o hosts = some r →
      (∃ p, r.1 = Except.ok p ∧ se.range_start ≤ p ∧ p ≤ se.range_end ∧
        p ∉ se.exclude) ∨
      r.1 = Except.error Errors.NoAvailablePort := by
    intro hosts r hr
    rcases random_port_aux_shape o se.range_start se.range_end se.exclude
        se.protocol hosts (se.range_end + 1 - se.range_start) 0 r.1 r.2 hr
      with ⟨p, hp⟩ | herr
    · obtain ⟨j, hj, hD, hp1, _, _⟩ := random_port_aux_ok o se.range_start
        se.range_end se.exclude se.protocol hosts h1
        (se.range_end + 1 - se.range_start) 0 r.1 r.2 p hr hp
      have hm : o.rng (0 + j) % (se.range_end + 1 - se.range_start) <
          se.range_end + 1 - se.range_start := Nat.mod_lt _ (by omega)
      exact Or.inl ⟨p, hp, by omega, by omega, hp1⟩
    · exact Or.inr herr
  cases hh : se.host with
  | some h =>
    obtain ⟨ip, hip⟩ := h4 h hh
    have hpick := pick_eq_host se o h ip h1 h2 h3 hh hip
    cases hrand : se.random with
    | false =>
      rw [hrand, if_neg (by decide)] at hpick
      rcases hseq [ip] with ⟨p, hp, hb1, hb2, hb3⟩ | herr
      · exact ⟨(se.get_port o [ip]).1, (se.get_port o [ip]).2, by rw [hpick],
          Or.inl ⟨p, hp, hb1, hb2, hb3⟩⟩
      · exact ⟨(se.get_port o [ip]).1, (se.get_port o [ip]).2, by rw [hpick],
          Or.inr herr⟩
    | true =>
      rw [hrand, if_pos rfl] at hpick
      obtain ⟨r, hr⟩ := random_port_some se o [ip] h1
      rw [hr] at hpick
      exact ⟨r.1, r.2, by rw [hpick], hrnd [ip] r hr⟩
  | none =>
    have hpick := pick_eq_local se o h1 h2 h3 hh
    cases hrand : se.random with
    | false =>
      rw [hrand, if_neg (by decide)] at hpick
      rcases hseq (get_local_hosts o) with ⟨p, hp, hb1, hb2, hb3⟩ | herr
      · exact ⟨(se.get_port o (get_local_hosts o)).1,
          Event.resolveLocal :: (se.get_port o (get_local_hosts o)).2, hpick,
          Or.inl ⟨p, hp, hb1, hb2, hb3⟩⟩
      · exact ⟨(se.get_port o (get_local_hosts o)).1,
          Event.resolveLocal :: (se.get_port o (get_local_hosts o)).2, hpick,
          Or.inr herr⟩
    | true =>
      rw [hrand, if_pos rfl] at hpick
      obtain ⟨r, hr⟩ := random_port_some se o (get_local_hosts o) h1
      simp only [hr] at hpick
      exact ⟨r.1, Event.resolveLocal :: r.2, hpick,
        hrnd (get_local_hosts o) r hr⟩

theorem pick_sound_witness :
    ∃ res l, cfgSeq.pick oracle0 = some (res, l) ∧
      ((∃ p, res = Except.ok p ∧ cfgSeq.range_start ≤ p ∧
        p ≤ cfgSeq.range_end ∧ p ∉ cfgSeq.exclude) ∨
       res = Except.error Errors.NoAvailablePort) :=
  pick_sound cfgSeq oracle0 (by decide)

/-- Claim C10: once validation has passed, the configured range is non-empty
(`range_start ≤ range_end`), so the random draw of `gen_range` — which panics
on an empty range, modelled by `none` — never panics: with the random
strategy, `pick` always returns a value. -/
theorem pick_random_no_panic (se : PortPicker) (o : Oracle)
    (hv : validCfgB se o = true) (hr : se.random = true) :
    se.range_start ≤ se.range_end ∧ (se.pick o).isSome = true := by
  obtain ⟨h1, h2, h3, h4⟩ := validCfgB_spec se o hv
  refine ⟨h1, ?_⟩
  cases hh : se.host with
  | some h =>
    obtain ⟨ip, hip⟩ := h4 h hh
    have hpick := pick_eq_host se o h ip h1 h2 h3 hh hip
    rw [hr, if_pos rfl] at hpick
    obtain ⟨r, hrr⟩ := random_port_some se o [ip] h1
    rw [hpick, hrr]
    rfl
  | none =>
    have hpick := pick_eq_local se o h1 h2 h3 hh
    rw [hr, if_pos rfl] at hpick
    obtain ⟨r, hrr⟩ := random_port_some se o (get_local_hosts o) h1
    simp only [hrr] at hpick
    rw [hpick]
    rfl

theorem pick_random_no_panic_witness :
    cfgRand.range_start ≤ cfgRand.range_end ∧
    (cfgRand.pick oracle0).isSome = true :=
  pick_random_no_panic cfgRand oracle0 (by decide) rfl

/-- Claim C4 (amended): `pick` validates before anything else; an inverted
range yields `InvalidOption` with the message "The start port must be less
than or equal to the end port" (capital T, differing from the claim's quoted
lowercase), a range outside the bounds yields `InvalidOption` naming the two
bounds, and in both cases the trace is empty: no address resolution and no
bind probing occurs. -/
theorem pick_validation_spec (se : PortPicker) (o : Oracle) :
    (se.range_end < se.range_start →
      se.pick o = some (Except.error (Errors.InvalidOption
        "The start port must be less than or equal to the end port"), [])) ∧
    (se.range_start ≤ se.range_end →
      (se.range_start < MIN_PORT ∨ MAX_PORT < se.range_end) →
      se.pick o = some (Except.error (Errors.InvalidOption
        ("The port range must be between " ++ toString MIN_PORT ++ " and " ++
          toString MAX_PORT)), [])) := by
  constructor
  · intro h
    rw [PortPicker.pick, if_pos h]
  · intro h1 h2
    rw [PortPicker.pick, if_neg (by omega), if_pos h2]

theorem pick_validation_spec_witness :
    cfgInverted.pick oracle0 = some (Except.error (Errors.InvalidOption
      "The start port must be less than or equal to the end port"), []) ∧
    cfgLow.pick oracle0 = some (Except.error (Errors.InvalidOption
      ("The port range must be between " ++ toString MIN_PORT ++ " and " ++
        toString MAX_PORT)), []) :=
  ⟨(pick_validation_spec cfgInverted oracle0).1 (by decide),
   (pick_validation_spec cfgLow oracle0).2 (by decide) (by decide)⟩

lemma is_free_tcp_trace (o : Oracle) (p : Nat) (a : IpAddr) :
    (is_free_tcp o p a).2 = [Event.tcpProbe a p] := by
  cases h : o.tcpBind a p with
  | ok => simp [is_free_tcp, h]
  | err k =>
    simp only [is_free_tcp, h]
    split <;> rfl

lemma is_free_udp_trace (o : Oracle) (p : Nat) (a : IpAddr) :
    (is_free_udp o p a).2 = [Event.udpProbe a p] := by
  cases h : o.udpBind a p with
  | ok => simp [is_free_udp, h]
  | err k =>
    simp only [is_free_udp, h]
    split <;> rfl

lemma eventOkFor_is_free (o : Oracle) (p : Nat) (a : IpAddr) (pr : Protocol)
    (L : List IpAddr) (ha : a ∈ L) :
    ∀ e ∈ (is_free o p a pr).2, eventOkFor L e := by
  intro e he
  cases pr with
  | Tcp =>
    rw [is_free, is_free_tcp_trace] at he
    simp at he
    rw [he]
    exact ha
  | Udp =>
    rw [is_free, is_free_udp_trace] at he
    simp at he
    rw [he]
    exact ha
  | All =>
    by_cases ht : (is_free_tcp o p a).1 = true
    · have hf : (is_free o p a Protocol.All).2 =
          (is_free_tcp o p a).2 ++ (is_free_udp o p a).2 := by
        simp [is_free, ht]
      rw [hf] at he
      rcases List.mem_append.mp he with hm | hm
      · rw [is_free_tcp_trace] at hm
        simp at hm
        rw [hm]
        exact ha
      · rw [is_free_udp_trace] at hm
        simp at hm
        rw [hm]
        exact ha
    · have hf : (is_free o p a Protocol.All).2 = (is_free_tcp o p a).2 := by
        simp [is_free, ht]
      rw [hf, is_free_tcp_trace] at he
      simp at he
      rw [he]
      exact ha

lemma eventOkFor_in_hosts (o : Oracle) (p : Nat) (hs : List IpAddr)
    (pr : Protocol) (L : List IpAddr) (hsub : ∀ a ∈ hs, a ∈ L) :
    ∀ e ∈ (is_free_in_hosts o p hs pr).2, eventOkFor L e := by
  induction hs with
  | nil =>
    intro e he
    simp [is_free_in_hosts] at he
  | cons b t ih =>
    intro e he
    by_cases hb : (is_free o p b pr).1 = true
    · have hf : (is_free_in_hosts o p (b :: t) pr).2 =
          (is_free o p b pr).2 ++ (is_free_in_hosts o p t pr).2 := by
        simp [is_free_in_hosts, hb]
      rw [hf] at he
      rcases List.mem_append.mp he with hm | hm
      · exact eventOkFor_is_free o p b pr L (hsub b (List.mem_cons_self b t)) e hm
      · exact ih (fun a ha => hsub a (List.mem_cons_of_mem b ha)) e hm
    · have hf : (is_free_in_hosts o p (b :: t) pr).2 = (is_free o p b pr).2 := by
        simp [is_free_in_hosts, hb]
      rw [hf] at he
      exact eventOkFor_is_free o p b pr L (hsub b (List.mem_cons_self b t)) e he

lemma eventOkFor_get_port_aux (o : Oracle) (excl : Finset Nat) (pr : Protocol)
    (hs : List IpAddr) (L : List IpAddr) (hsub : ∀ a ∈ hs, a ∈ L) :
    ∀ n port e, e ∈ (get_port_aux o excl pr hs port n).2 → eventOkFor L e := by
  intro n
  induction n with
  | zero =>
    intro port e he
    simp [get_port_aux] at he
  | succ n ih =>
    intro port e he
    by_cases hex : port ∈ excl
    · rw [get_port_aux, if_pos hex] at he
      exact ih (port + 1) e he
    · cases hfree : (is_free_in_hosts o port hs pr).1 with
      | true =>
        simp only [get_port_aux, if_neg hex, hfree, if_pos] at he
        exact eventOkFor_in_hosts o port hs pr L hsub e he
      | false =>
        simp only [get_port_aux, if_neg hex, hfree] at he
        rcases List.mem_append.mp he with hm | hm
        · exact eventOkFor_in_hosts o port hs pr L hsub e hm
        · exact ih (port + 1) e hm

lemma eventOkFor_random_port_aux (o : Oracle) (lo hi : Nat) (excl : Finset Nat)
    (pr : Protocol) (hs : List IpAddr) (L : List IpAddr)
    (hsub : ∀ a ∈ hs, a ∈ L) :
    ∀ n i res l, random_port_aux o lo hi excl pr hs i n = some (res, l) →
      ∀ e ∈ l, eventOkFor L e := by
  intro n
  induction n with
  | zero =>
    intro i res l h e he
    simp only [random_port_aux, Option.some.injEq, Prod.mk.injEq] at h
    rw [← h.2] at he
    simp at he
  | succ n ih =>
    intro i res l h e he
    cases hg : gen_range lo hi (o.rng i) with
    | none => simp [random_port_aux, hg] at h
    | some port =>
      simp only [random_port_aux, hg] at h
      by_cases hex : port ∈ excl
      · rw [if_pos hex] at h
        cases hr : random_port_aux o lo hi excl pr hs (i + 1) n with
        | none => rw [hr] at h; simp at h
        | some r2 =>
          rw [hr] at h
          simp only [Option.some.injEq, Prod.mk.injEq] at h
          rw [← h.2] at he
          rcases List.mem_cons.mp he with hm | hm
          · rw [hm]; trivial
          · exact ih (i + 1) r2.1 r2.2 hr e hm
      · rw [if_neg hex] at h
        cases hfree : (is_free_in_hosts o port hs pr).1 with
        | true =>
          rw [hfree, if_pos rfl] at h
          simp only [Option.some.injEq, Prod.mk.injEq] at h
          rw [← h.2] at he
          rcases List.mem_cons.mp he with hm | hm
          · rw [hm]; trivial
          · exact eventOkFor_in_hosts o port hs pr L hsub e hm
        | false =>
          rw [hfree, if_neg (by decide)] at h
          cases hr : random_port_aux o lo hi excl pr hs (i + 1) n with
          | none => rw [hr] at h; simp at h
          | some r2 =>
            rw [hr] at h
            simp only [Option.some.injEq, Prod.mk.injEq] at h
            rw [← h.2] at he
            rcases List.mem_cons.mp he with hm | hm
            · rw [hm]; trivial
            · rcases List.mem_append.mp hm with hm2 | hm2
              · exact eventOkFor_in_hosts o port hs pr L hsub e hm2
              · exact ih (i + 1) r2.1 r2.2 hr e hm2

lemma random_port_spec (se : PortPicker) (o : Oracle) (hosts : List IpAddr)
    (hle : se.range_start ≤ se.range_end) :
    ∃ r, se.random_port o hosts = some r ∧
      countDraws r.2 ≤ rangeLen se ∧
      (∀ p, r.1 = Except.ok p → ∃ j, j < rangeLen se ∧ drawn se o j = p ∧
        p ∉ se.exclude ∧ freeInHosts o hosts se.protocol p = true ∧
        ∀ k, k < j → (drawn se o k ∈ se.exclude ∨
          freeInHosts o hosts se.protocol (drawn se o k) = false)) ∧
      ((∀ j, j < rangeLen se → (drawn se o j ∈ se.exclude ∨
          freeInHosts o hosts se.protocol (drawn se o j) = false)) →
        r.1 = Except.error Errors.NoAvailablePort) := by
  obtain ⟨r, hrr⟩ := random_port_some se o hosts hle
  refine ⟨r, hrr, ?_, ?_, ?_⟩
  · exact random_port_aux_count o se.range_start se.range_end se.exclude
      se.protocol hosts (se.range_end + 1 - se.range_start) 0 r hrr
  · intro p hp
    obtain ⟨j, hj, hD, hp1, hp2, hall⟩ := random_port_aux_ok o se.range_start
      se.range_end se.exclude se.protocol hosts hle
      (se.range_end + 1 - se.range_start) 0 r.1 r.2 p hrr hp
    refine ⟨j, hj, ?_, hp1, hp2, fun k hk => ?_⟩
    · rw [Nat.zero_add] at hD
      exact hD
    · have hk2 := hall k hk
      rw [Nat.zero_add] at hk2
      exact hk2
  · intro hall
    obtain ⟨l', he⟩ := random_port_aux_exhaust o se.range_start se.range_end
      se.exclude se.protocol hosts hle (se.range_end + 1 - se.range_start) 0
      (fun j hj => by
        have hj2 := hall j hj
        rw [Nat.zero_add]
        exact hj2)
    have he2 : se.random_port o hosts =
        some (Except.error Errors.NoAvailablePort, l') := he
    rw [hrr] at he2
    injection he2 with hinj
    rw [hinj]

/-- Claim C3: under the random strategy on a valid configuration, `pick`
terminates after at most `rangeLen` draws (an excluded draw still consumes an
attempt), a returned port is the first drawn non-excluded free port, and if
all `rangeLen` draws are excluded or not free the result is
`NoAvailablePort`. -/
theorem pick_random_spec (se : PortPicker) (o : Oracle)
    (hv : validCfgB se o = true) (hr : se.random = true) :
    ∃ res l, se.pick o = some (res, l) ∧
      countDraws l ≤ rangeLen se ∧
      (∀ p, res = Except.ok p → ∃ j, j < rangeLen se ∧ drawn se o j = p ∧
        p ∉ se.exclude ∧
        freeInHosts o (resolvedHosts se o) se.protocol p = true ∧
        ∀ k, k < j → (drawn se o k ∈ se.exclude ∨
          freeInHosts o (resolvedHosts se o) se.protocol
            (drawn se o k) = false)) ∧
      ((∀ j, j < rangeLen se → (drawn se o j ∈ se.exclude ∨
          freeInHosts o (resolvedHosts se o) se.protocol
            (drawn se o j) = false)) →
        res = Except.error Errors.NoAvailablePort) := by
  obtain ⟨h1, h2, h3, h4⟩ := validCfgB_spec se o hv
  cases hh : se.host with
  | some h =>
    obtain ⟨ip, hip⟩ := h4 h hh
    have hres : resolvedHosts se o = [ip] := by
      simp [resolvedHosts, hh, hip]
    rw [hres]
    have hpick := pick_eq_host se o h ip h1 h2 h3 hh hip
    rw [hr, if_pos rfl] at hpick
    obtain ⟨r, hrr, hc, hok, herr⟩ := random_port_spec se o [ip] h1
    rw [hrr] at hpick
    exact ⟨r.1, r.2, by rw [hpick], hc, hok, herr⟩
  | none =>
    have hres : resolvedHosts se o = get_local_hosts o := by
      simp [resolvedHosts, hh]
    rw [hres]
    have hpick := pick_eq_local se o h1 h2 h3 hh
    rw [hr, if_pos rfl] at hpick
    obtain ⟨r, hrr, hc, hok, herr⟩ := random_port_spec se o
      (get_local_hosts o) h1
    simp only [hrr] at hpick
    refine ⟨r.1, Event.resolveLocal :: r.2, hpick, ?_, hok, herr⟩
    rw [countDraws_resolve_cons]
    exact hc

theorem pick_random_spec_witness :
    ∃ res l, cfgRand.pick oracle0 = some (res, l) ∧
      countDraws l ≤ rangeLen cfgRand ∧
      (∀ p, res = Except.ok p → ∃ j, j < rangeLen cfgRand ∧
        drawn cfgRand oracle0 j = p ∧ p ∉ cfgRand.exclude ∧
        freeInHosts oracle0 (resolvedHosts cfgRand oracle0)
          cfgRand.protocol p = true ∧
        ∀ k, k < j → (drawn cfgRand oracle0 k ∈ cfgRand.exclude ∨
          freeInHosts oracle0 (resolvedHosts cfgRand oracle0)
            cfgRand.protocol (drawn cfgRand oracle0 k) = false)) ∧
      ((∀ j, j < rangeLen cfgRand → (drawn cfgRand oracle0 j ∈
          cfgRand.exclude ∨
          freeInHosts oracle0 (resolvedHosts cfgRand oracle0)
            cfgRand.protocol (drawn cfgRand oracle0 j) = false)) →
        res = Except.error Errors.NoAvailablePort) :=
  pick_random_spec cfgRand oracle0 (by decide) rfl

/-- Claim C5: with a configured host string, on parse success the resolved
address list is exactly the one-element list of that address and every event
of the run targets only that address (no interface enumeration, no probe of
any other address); on parse failure `pick` returns `InvalidOption` carrying
the offending host string and the trace is empty (no probing). -/
theorem pick_host_spec (se : PortPicker) (o : Oracle) (h : String)
    (h1 : se.range_start ≤ se.range_end) (h2 : MIN_PORT ≤ se.range_start)
    (h3 : se.range_end ≤ MAX_PORT) (hh : se.host = some h) :
    (∀ ip, o.parseIp h = some ip →
      resolvedHosts se o = [ip] ∧
      ∀ res l, se.pick o = some (res, l) → ∀ e ∈ l, eventOkFor [ip] e) ∧
    (o.parseIp h = none →
      se.pick o = some (Except.error (Errors.InvalidOption
        ("The host " ++ h ++ " is not a valid IP address")), [])) := by
  constructor
  · intro ip hip
    refine ⟨by simp [resolvedHosts, hh, hip], ?_⟩
    intro res l hpick e he
    have hpe := pick_eq_host se o h ip h1 h2 h3 hh hip
    cases hrand : se.random with
    | false =>
      rw [hrand, if_neg (by decide)] at hpe
      rw [hpe] at hpick
      injection hpick with hinj
      have hl : (se.get_port o [ip]).2 = l := by rw [hinj]
      rw [← hl] at he
      exact eventOkFor_get_port_aux o se.exclude se.protocol [ip] [ip]
        (fun a ha => ha) (se.range_end + 1 - se.range_start) se.range_start
        e he
    | true =>
      rw [hrand, if_pos rfl] at hpe
      rw [hpe] at hpick
      exact eventOkFor_random_port_aux o se.range_start se.range_end
        se.exclude se.protocol [ip] [ip] (fun a ha => ha)
        (se.range_end + 1 - se.range_start) 0 res l hpick e he
  · intro hnone
    rw [PortPicker.pick, if_neg (by omega), if_neg (by omega), hh]
    simp [hnone]

theorem pick_host_spec_witness :
    resolvedHosts cfgSeq oracle0 = [IpAddr.v4 2130706433] :=
  ((pick_host_spec cfgSeq oracle0 "127.0.0.1" (by decide) (by decide)
    (by decide) rfl).1 (IpAddr.v4 2130706433) (by decide)).1

/-- Counterexample to claim C4 as stated: the message of the inverted-range
error starts with a capital T, not the lowercase quoted in the claim. -/
theorem pick_validation_msg_cex :
    cfgInverted.pick oracle0 = some (Except.error (Errors.InvalidOption
      "The start port must be less than or equal to the end port"), []) ∧
    cfgInverted.pick oracle0 ≠ some (Except.error (Errors.InvalidOption
      "the start port must be less than or equal to the end port"), []) ∧
    "The start port must be less than or equal to the end port" ≠
      "the start port must be less than or equal to the end port" := by
  exact ⟨by decide, by decide, by decide⟩

end RandomPort
